import Mathlib

/-
Verification of the sshtui session multiplexer (studiowebux/sshtui).

Shallow embedding of the Go sources, translated definition by definition:
- session.go / the timeout-enabled iteration of the same file:
  scrollback constants and append logic, createSession, attachToSession,
  closeActiveSession, the exit-monitor task;
- multi.go: executeMultiHost, executeMultiHostCollected;
- ui.go: the 1-based session numbering shown by showMenu.

Bytes are modelled as Nat, byte buffers as List Nat, I/O streams as the
list of chunks successive Read calls return, and processes / ptys by the
observable data the code extracts from them.  Side effects the claims
mention (killing a process, printing, signalling) are modelled as
explicit event values returned next to the data result.
-/

namespace SSHTui

/-- Constant from session.go: replay at most 4096 bytes on reattach. -/
def ScrollbackReplaySize : Nat := 4096

/-- Constant from session.go: scrollback hard ceiling of 1 MiB. -/
def MaxScrollbackSize : Nat := 1024 * 1024

/-- Constant from session.go: stdin read buffer size. -/
def StdinBufSize : Nat := 1024

/-- Constant from session.go: pty read buffer size. -/
def PtyBufSize : Nat := 4096

/-- One pty-read chunk appended to the scrollback, then truncated to the
most recent MaxScrollbackSize bytes, exactly as the pty-to-stdout task does:
append, then drop a prefix when the length exceeds the ceiling. -/
def scrollbackAppend (sb chunk : List Nat) : List Nat :=
  let s := sb ++ chunk
  if s.length > MaxScrollbackSize then s.drop (s.length - MaxScrollbackSize) else s

/-- The scrollback buffer produced by a whole sequence of pty reads,
starting from the empty buffer a fresh Session carries. -/
def scrollbackOfChunks (chunks : List (List Nat)) : List Nat :=
  chunks.foldl scrollbackAppend []

/-- The most recent k bytes of a buffer (the whole buffer when shorter). -/
def lastN (k : Nat) (l : List Nat) : List Nat :=
  l.drop (l.length - k)

/-- The bytes attachToSession replays on reattach: the scrollback, limited
to its last ScrollbackReplaySize bytes.  The session's buffer itself is
only read here, never written (the Go code reslices a local variable). -/
def replayTail (sb : List Nat) : List Nat :=
  if sb.length > ScrollbackReplaySize then sb.drop (sb.length - ScrollbackReplaySize) else sb

/-- Why the stdin-to-pty copy task stopped: it saw the detach sentinel in a
chunk, or a read (end of stream) or write failed. -/
inductive StopReason where
  | sentinel
  | readError
deriving DecidableEq

/-- The stdin-to-pty copy task of attachToSession, over the list of chunks
the successive stdin reads return.  A chunk containing the sentinel byte 0
is scanned and the task returns without writing it; any other chunk is
forwarded whole to the pty.  The first component is everything written to
the pty, the second why the task signalled completion. -/
def stdinCopy : List (List Nat) → List Nat × StopReason
  | [] => ([], StopReason.readError)
  | c :: cs =>
    if c.contains 0 then ([], StopReason.sentinel)
    else
      let r := stdinCopy cs
      (c ++ r.1, r.2)

/-- The chunks read strictly before the first chunk that contains the
sentinel byte (all chunks when no chunk contains it). -/
def chunksBeforeSentinel : List (List Nat) → List (List Nat)
  | [] => []
  | c :: cs => if c.contains 0 then [] else c :: chunksBeforeSentinel cs

/-- A Session record (session.go): monotonically assigned id, host alias,
pty handle, liveness flag, captured output.  The process and pty handles
carry no structure the verified claims inspect, so the pty is a bare
handle number. -/
structure Session where
  ID : Nat
  Alias : String
  PTY : Nat
  Active : Bool
  Scrollback : List Nat
deriving DecidableEq

/-- The registry globals of session.go: the insertion-ordered session
slice and the next id to assign. -/
structure RegState where
  sessions : List Session
  nextID : Nat
deriving DecidableEq

/-- Result reported to the operator by createSession. -/
inductive CreateResult where
  | created
  | connectionError
  | connectionTimeout
deriving DecidableEq

/-- Side effects createSession performs, in order. -/
inductive CEvent where
  | killProcess
  | reportTimeout
  | reportError (msg : String)
deriving DecidableEq

/-- How the bounded wait for pty.Start resolves: the pty arrives, the start
fails, or the 10-second context expires first (processStarted records
whether cmd.Process was non-nil at that moment). -/
inductive PtyOutcome where
  | ok (pty : Nat)
  | err (msg : String)
  | timeout (processStarted : Bool)
deriving DecidableEq

/-- The session record createSession builds on success: next monotonic
id, the host alias, the fresh pty, active set, empty scrollback. -/
def newSession (st : RegState) (al : String) (p : Nat) : Session :=
  { ID := st.nextID, Alias := al, PTY := p, Active := true, Scrollback := [] }

/-- createSession from the timeout-enabled iteration of session.go.  On a
pty the session is recorded under the next monotonic id with active set,
and the id counter advances.  On error or timeout the registry is left
untouched; on timeout the started process is killed first and the timeout
reported second, mirroring the order of the ctx.Done branch. -/
def createSession (st : RegState) (al : String) (outcome : PtyOutcome) :
    RegState × CreateResult × List CEvent :=
  match outcome with
  | PtyOutcome.ok p =>
    ({ sessions := st.sessions ++ [newSession st al p],
       nextID := st.nextID + 1 }, CreateResult.created, [])
  | PtyOutcome.err m => (st, CreateResult.connectionError, [CEvent.reportError m])
  | PtyOutcome.timeout started =>
    (st, CreateResult.connectionTimeout,
      (if started then [CEvent.killProcess] else []) ++ [CEvent.reportTimeout])

/-- Inner loop of closeActiveSession: walks toward the front looking for
the last active session (the Go loop runs i from the end down and breaks
at the first hit).  Returns the remaining list and the session that was
terminated, closed and removed, or none when no session is active. -/
def closeActiveAux : List Session → Option (List Session × Session)
  | [] => none
  | s :: rest =>
    match closeActiveAux rest with
    | some (rest', c) => some (s :: rest', c)
    | none => if s.Active then some (rest, s) else none

/-- closeActiveSession from session.go: remove the last active session,
returning the new registry list and the session whose pty was closed and
process killed; a no-op returning the list unchanged when none is active. -/
def closeActiveSession (l : List Session) : List Session × Option Session :=
  match closeActiveAux l with
  | some (l', c) => (l', some c)
  | none => (l, none)

/-- Index (0-based) of the last session with active set, scanning exactly
as the closeActiveSession loop does; none when no session is active. -/
def lastActiveIdx : List Session → Option Nat
  | [] => none
  | s :: rest =>
    match lastActiveIdx rest with
    | some j => some (j + 1)
    | none => if s.Active then some 0 else none

/-- The removal step sessions = append(sessions[:i], sessions[i+1:]...)
performed by closeActiveSession. -/
def removeAt (l : List Session) (i : Nat) : List Session :=
  l.take i ++ l.drop (i + 1)

/-- The session shown as number n by showMenu (ui.go prints the 1-based
slice position i+1, not the stored id). -/
def sessionAtPosition (l : List Session) (n : Nat) : Option Session :=
  l[n - 1]?

/-- What attachToSession reports: the guard fired because the process had
already exited, or a full attach cycle ran and ended in a detach. -/
inductive AttachOutcome where
  | sessionEnded
  | detached
deriving DecidableEq

/-- The environment one attach cycle observes: whether Cmd.ProcessState
was non-nil and Exited at entry, and the chunk streams the two copy tasks
read from stdin and from the pty. -/
structure AttachEnv where
  exited : Bool
  stdinChunks : List (List Nat)
  ptyChunks : List (List Nat)
deriving DecidableEq

/-- Everything observable about one attachToSession call: the session's
scrollback afterwards, the reported outcome, whether raw mode was acquired
and restored, the bytes replayed to the terminal, and the bytes forwarded
to the pty. -/
structure AttachResult where
  scrollback : List Nat
  outcome : AttachOutcome
  rawModeUsed : Bool
  replayed : List Nat
  forwarded : List Nat
deriving DecidableEq

/-- attachToSession from session.go.  The guard returns before the replay,
resize, raw-mode and copy-task phases when the process has exited;
otherwise the tail of the scrollback is replayed, raw mode is acquired
(and restored on leaving), the pty output is captured chunk by chunk into
the scrollback, and the stdin task forwards bytes until the sentinel. -/
def attachToSession (sb : List Nat) (env : AttachEnv) : AttachResult :=
  if env.exited then
    { scrollback := sb, outcome := AttachOutcome.sessionEnded, rawModeUsed := false,
      replayed := [], forwarded := [] }
  else
    { scrollback := env.ptyChunks.foldl scrollbackAppend sb,
      outcome := AttachOutcome.detached, rawModeUsed := true,
      replayed := replayTail sb,
      forwarded := (stdinCopy env.stdinChunks).1 }

/-- The operations of the system that touch the session registry: session
creation, the exit-monitor task flipping active off for its session, the
user-issued close commands, and an attach cycle growing a scrollback. -/
inductive Op where
  | create (al : String) (outcome : PtyOutcome)
  | monitorExit (id : Nat)
  | closeActive
  | closeAll
  | attach (id : Nat) (chunks : List (List Nat))
deriving DecidableEq

/-- One step of the registry: how each operation of the program transforms
the session list and id counter (session.go; the monitor goroutine sets
session.Active = false for its own session and nothing else). -/
def step (st : RegState) (op : Op) : RegState :=
  match op with
  | Op.create al outcome => (createSession st al outcome).1
  | Op.monitorExit id =>
    { st with
      sessions := st.sessions.map fun s =>
        if s.ID = id then { s with Active := false } else s }
  | Op.closeActive => { st with sessions := (closeActiveSession st.sessions).1 }
  | Op.closeAll => { st with sessions := [] }
  | Op.attach id chunks =>
    { st with
      sessions := st.sessions.map fun s =>
        if s.ID = id then
          { s with Scrollback := chunks.foldl scrollbackAppend s.Scrollback }
        else s }

/-- A port forward parsed from the ssh config (ui/config layer). -/
structure PortForward where
  FwdType : String
  LocalPort : String
  RemoteAddr : String
deriving DecidableEq

/-- An SSH host entry as parsed from the config file. -/
structure SSHHost where
  Alias : String
  HostName : String
  User : String
  Port : String
  Forwards : List PortForward
deriving DecidableEq

/-- Per-host record of multi.go collected mode. -/
structure HostResult where
  Alias : String
  Output : String
  Error : Option String
deriving DecidableEq

/-- How one host's task resolves: pty.Start fails, or the command runs and
its captured pty output is a string. -/
inductive HostOutcome where
  | ok (output : String)
  | spawnErr (msg : String)
deriving DecidableEq

/-- The HostResult a single collected-mode task stores in its slot:
a spawn failure records the error with empty output, success records the
captured output with no error (multi.go executeMultiHostCollected). -/
def runHost (h : SSHHost) (o : HostOutcome) : HostResult :=
  match o with
  | HostOutcome.ok out => { Alias := h.Alias, Output := out, Error := none }
  | HostOutcome.spawnErr e => { Alias := h.Alias, Output := "", Error := some e }

/-- One finishing task writing its slot of the results slice. -/
def collectStep (tasks : List (SSHHost × HostOutcome)) (acc : List (Option HostResult))
    (i : Nat) : List (Option HostResult) :=
  match tasks[i]? with
  | some t => acc.set i (some (runHost t.1 t.2))
  | none => acc

/-- The results slice of executeMultiHostCollected after every task has
finished: slots are written in the order the tasks finish (the order
list), each task writing only its own selection-order index. -/
def collectedResults (tasks : List (SSHHost × HostOutcome)) (order : List Nat) :
    List (Option HostResult) :=
  order.foldl (collectStep tasks) (List.replicate tasks.length none)

/-- Terminal-visible events of executeMultiHostCollected: a plain print, a
task finishing (its wg.Done), and the single final report print. -/
inductive MEvent where
  | print (s : String)
  | finish (idx : Nat)
  | printReport (rs : List (Option HostResult))
deriving DecidableEq

/-- True for events that print to the terminal. -/
def isPrint : MEvent → Bool
  | MEvent.print _ => true
  | MEvent.printReport _ => true
  | MEvent.finish _ => false

/-- True for task-finish events. -/
def isFinish : MEvent → Bool
  | MEvent.finish _ => true
  | _ => false

/-- The events host idx emits as its task ends: on success the progress
check-mark line is printed and then the deferred wg.Done runs; on a spawn
failure the task returns without printing. -/
def hostFinishEvents (tasks : List (SSHHost × HostOutcome)) (i : Nat) : List MEvent :=
  match tasks[i]? with
  | some (h, HostOutcome.ok _) => [MEvent.print ("  ✓ " ++ h.Alias), MEvent.finish i]
  | some (_, HostOutcome.spawnErr _) => [MEvent.finish i]
  | none => []

/-- The terminal events emitted while collection is still in progress:
the banner printed on entry and each task's finish events in finish
order. -/
def collectingPhaseEvents (tasks : List (SSHHost × HostOutcome)) (order : List Nat) :
    List MEvent :=
  MEvent.print "Multi-Host Execution (Collecting...)" ::
    (order.map (hostFinishEvents tasks)).flatten

/-- The full terminal event trace of executeMultiHostCollected for a given
finish order: the collecting-phase events, then the single report printed
after wg.Wait returns. -/
def collectedEvents (tasks : List (SSHHost × HostOutcome)) (order : List Nat) :
    List MEvent :=
  collectingPhaseEvents tasks order ++
    [MEvent.printReport (collectedResults tasks order)]

/-- The printing discipline the spec sentence asserts for collected mode:
no print event anywhere before a task-finish event of the trace. -/
def noPrintBeforeFinish (evs : List MEvent) : Prop :=
  ∀ p q, p < q → q < evs.length →
    isFinish (evs.getD q (MEvent.finish 0)) = true →
    isPrint (evs.getD p (MEvent.finish 0)) = false

/-- Go strings.TrimSpace over the character list of the read line: strip
leading and trailing whitespace. -/
def trimSpace (s : List Char) : List Char :=
  ((s.dropWhile Char.isWhitespace).reverse.dropWhile Char.isWhitespace).reverse

/-- Operator-visible actions of executeMultiHost (multi.go): the
no-hosts notice, the command prompt, the display-mode prompt, and the
dispatch into one of the two executors. -/
inductive UIEvent where
  | noHostsNotice
  | promptCommand
  | promptMode
  | runLive (hosts : List SSHHost) (command : List Char)
  | runCollected (hosts : List SSHHost) (command : List Char)
deriving DecidableEq

/-- executeMultiHost from multi.go as the trace of its operator-visible
actions: empty host set prints a notice and returns; otherwise the command
prompt is shown and the line read; a command empty after trimming returns
at once (no mode prompt, no dispatch); otherwise the mode prompt is shown
and mode 1 dispatches live, anything else collected. -/
def executeMultiHost (hosts : List SSHHost) (commandLine modeInput : List Char) :
    List UIEvent :=
  if hosts.length = 0 then [UIEvent.noHostsNotice]
  else
    let command := trimSpace commandLine
    if command = [] then [UIEvent.promptCommand]
    else
      [UIEvent.promptCommand, UIEvent.promptMode,
        if trimSpace modeInput = ['1'] then UIEvent.runLive hosts command
        else UIEvent.runCollected hosts command]

lemma lastN_of_le {k : Nat} {l : List Nat} (h : l.length ≤ k) : lastN k l = l := by
  unfold lastN
  rw [Nat.sub_eq_zero_of_le h, List.drop_zero]

lemma scrollbackAppend_eq_lastN (sb c : List Nat) :
    scrollbackAppend sb c = lastN MaxScrollbackSize (sb ++ c) := by
  unfold scrollbackAppend
  by_cases h : (sb ++ c).length > MaxScrollbackSize
  · simp only [h, if_true]
    rfl
  · simp only [h, if_false]
    rw [lastN_of_le (Nat.le_of_not_lt h)]

lemma lastN_append_left (k : Nat) (s c : List Nat) :
    lastN k (lastN k s ++ c) = lastN k (s ++ c) := by
  unfold lastN
  rw [List.drop_append_eq_append_drop, List.drop_append_eq_append_drop, List.drop_drop]
  have hs : (List.drop (s.length - k) s).length = s.length - (s.length - k) :=
    List.length_drop _ _
  congr 2
  · simp only [List.length_append, hs]
    omega
  · simp only [List.length_append, hs]
    omega

lemma foldl_scrollbackAppend (chunks : List (List Nat)) : ∀ s : List Nat,
    chunks.foldl scrollbackAppend (lastN MaxScrollbackSize s) =
      lastN MaxScrollbackSize (s ++ chunks.flatten) := by
  induction chunks with
  | nil => intro s; rw [List.foldl_nil, List.flatten_nil, List.append_nil]
  | cons c cs ih =>
    intro s
    rw [List.foldl_cons, scrollbackAppend_eq_lastN, lastN_append_left, ih (s ++ c),
      List.flatten_cons, List.append_assoc]

/-- C1: after any sequence of chunk appends the scrollback buffer holds
exactly the last MaxScrollbackSize bytes of the concatenated input (which
is the last 1 MiB when the cumulative length exceeds 1 MiB), and the full
concatenation whenever the cumulative length is at most 1 MiB; appends
never fail and drop nothing else. -/
theorem scrollback_truncation_law (chunks : List (List Nat)) :
    scrollbackOfChunks chunks = lastN MaxScrollbackSize chunks.flatten ∧
    (chunks.flatten.length ≤ MaxScrollbackSize → scrollbackOfChunks chunks = chunks.flatten) := by
  have h1 : scrollbackOfChunks chunks = lastN MaxScrollbackSize chunks.flatten := by
    have h := foldl_scrollbackAppend chunks []
    rw [lastN_of_le (by simp)] at h
    simpa [scrollbackOfChunks] using h
  exact ⟨h1, fun hle => by rw [h1, lastN_of_le hle]⟩

/-- C1 witness: a concrete append sequence within the ceiling is kept in
full. -/
theorem scrollback_truncation_law_witness :
    ([[1, 2], [3]] : List (List Nat)).flatten.length ≤ MaxScrollbackSize ∧
    scrollbackOfChunks [[1, 2], [3]] = ([[1, 2], [3]] : List (List Nat)).flatten :=
  ⟨by decide, (scrollback_truncation_law [[1, 2], [3]]).2 (by decide)⟩

/-- C5: the replay performed on attach writes at most ScrollbackReplaySize
bytes, and writes the whole buffer verbatim whenever the buffer is shorter
than that; replayTail only reads the buffer, so the buffer is unchanged. -/
theorem replayTail_spec (sb : List Nat) :
    (replayTail sb).length ≤ ScrollbackReplaySize ∧
    (sb.length < ScrollbackReplaySize → replayTail sb = sb) := by
  constructor
  · unfold replayTail
    by_cases h : sb.length > ScrollbackReplaySize
    · simp only [h, if_true, List.length_drop]
      omega
    · simp only [h, if_false]
      omega
  · intro h
    unfold replayTail
    rw [if_neg (by omega)]

/-- C5 witness: a concrete short buffer is replayed in full. -/
theorem replayTail_spec_witness :
    ([5, 6, 7] : List Nat).length < ScrollbackReplaySize ∧
    replayTail [5, 6, 7] = [5, 6, 7] :=
  ⟨by decide, (replayTail_spec [5, 6, 7]).2 (by decide)⟩

lemma contains_false_not_mem {c : List Nat} (h : c.contains 0 = false) : (0 : Nat) ∉ c := by
  simpa using h

lemma takeWhile_append_of_forall {p : Nat → Bool} {c l : List Nat}
    (h : ∀ b ∈ c, p b = true) : (c ++ l).takeWhile p = c ++ l.takeWhile p := by
  induction c with
  | nil => rfl
  | cons a c ih =>
    rw [List.cons_append, List.takeWhile_cons_of_pos (h a (List.mem_cons_self a c)),
      ih (fun b hb => h b (List.mem_cons_of_mem a hb)), List.cons_append]

lemma stdinCopy_fst_eq (cs : List (List Nat)) :
    (stdinCopy cs).1 = (chunksBeforeSentinel cs).flatten := by
  induction cs with
  | nil => rfl
  | cons c cs ih =>
    by_cases h : c.contains 0 = true
    · rw [stdinCopy, chunksBeforeSentinel, if_pos h, if_pos h]
      rfl
    · rw [stdinCopy, chunksBeforeSentinel, if_neg (by simp_all), if_neg (by simp_all)]
      rw [List.flatten_cons, ← ih]

lemma stdinCopy_isPrefix (cs : List (List Nat)) :
    ∃ t, (stdinCopy cs).1 ++ t = cs.flatten.takeWhile (fun b => b != 0) := by
  induction cs with
  | nil => exact ⟨[], rfl⟩
  | cons c cs ih =>
    by_cases h : c.contains 0 = true
    · refine ⟨(c :: cs).flatten.takeWhile (fun b => b != 0), ?_⟩
      rw [stdinCopy, if_pos h]
      rfl
    · obtain ⟨t, ht⟩ := ih
      refine ⟨t, ?_⟩
      have h0 : (0 : Nat) ∉ c := contains_false_not_mem (by simp_all)
      have hall : ∀ b ∈ c, (b != 0) = true := by
        intro b hb
        simp only [bne_iff_ne, ne_eq]
        exact fun hb0 => h0 (hb0 ▸ hb)
      rw [stdinCopy, if_neg (by simp_all)]
      rw [List.flatten_cons, takeWhile_append_of_forall hall, ← ht, List.append_assoc]

lemma stdinCopy_snd_sentinel (cs : List (List Nat)) (h : ∃ c ∈ cs, 0 ∈ c) :
    (stdinCopy cs).2 = StopReason.sentinel := by
  induction cs with
  | nil => obtain ⟨c, hc, _⟩ := h; exact absurd hc (List.not_mem_nil c)
  | cons c cs ih =>
    by_cases hc : c.contains 0 = true
    · rw [stdinCopy, if_pos hc]
    · rw [stdinCopy, if_neg (by simp_all)]
      obtain ⟨c', hc', h0⟩ := h
      rcases List.mem_cons.mp hc' with rfl | hmem
      · exact absurd h0 (contains_false_not_mem (by simp_all))
      · exact ih ⟨c', hmem, h0⟩

/-- C2 counterexample: a single read returning the byte 65 followed by the
sentinel 0 forwards nothing at all to the pty, while the bytes preceding
the sentinel in the stream are the single byte 65 — so the task does not
forward exactly the bytes preceding the sentinel. -/
theorem stdin_sentinel_counterexample :
    (0 ∈ ([[65, 0]] : List (List Nat)).flatten) ∧
    (stdinCopy [[65, 0]]).1 ≠
      ([[65, 0]] : List (List Nat)).flatten.takeWhile (fun b => b != 0) := by
  refine ⟨by decide, ?_⟩
  intro h
  exact absurd h (by decide)

/-- C2 amended: for every input chunk stream containing the sentinel byte
0, the stdin-to-pty task forwards exactly the chunks read strictly before
the chunk containing the sentinel, a prefix of the bytes preceding the
sentinel — so nothing at or after the sentinel (nor the sentinel itself)
is ever forwarded, but bytes that precede the sentinel inside its own read
chunk are dropped too — and it then signals completion. -/
theorem stdin_sentinel_forwarding (cs : List (List Nat)) (h : ∃ c ∈ cs, 0 ∈ c) :
    (stdinCopy cs).1 = (chunksBeforeSentinel cs).flatten ∧
    (∃ t, (stdinCopy cs).1 ++ t = cs.flatten.takeWhile (fun b => b != 0)) ∧
    (stdinCopy cs).2 = StopReason.sentinel :=
  ⟨stdinCopy_fst_eq cs, stdinCopy_isPrefix cs, stdinCopy_snd_sentinel cs h⟩

/-- C2 witness: a concrete stream whose second chunk holds the sentinel;
the first chunk is forwarded, nothing after. -/
theorem stdin_sentinel_forwarding_witness :
    (∃ c ∈ ([[1, 2], [0, 3], [4]] : List (List Nat)), 0 ∈ c) ∧
    ((stdinCopy [[1, 2], [0, 3], [4]]).1 =
        (chunksBeforeSentinel [[1, 2], [0, 3], [4]]).flatten ∧
      (∃ t, (stdinCopy [[1, 2], [0, 3], [4]]).1 ++ t =
        ([[1, 2], [0, 3], [4]] : List (List Nat)).flatten.takeWhile (fun b => b != 0)) ∧
      (stdinCopy [[1, 2], [0, 3], [4]]).2 = StopReason.sentinel) :=
  ⟨by decide, stdin_sentinel_forwarding [[1, 2], [0, 3], [4]] (by decide)⟩

/-- C3: when the 10-second bounded wait expires before pty establishment,
createSession reports ConnectionTimeout, leaves the registry exactly as it
was (no session appended, nextID not consumed), and when a process had
been started it is killed before the timeout is surfaced (the event list
is ordered: kill, then report). -/
theorem createSession_timeout_atomic (st : RegState) (al : String) (started : Bool) :
    (createSession st al (PtyOutcome.timeout started)).1 = st ∧
    (createSession st al (PtyOutcome.timeout started)).2.1 = CreateResult.connectionTimeout ∧
    (started = true →
      (createSession st al (PtyOutcome.timeout started)).2.2 =
        [CEvent.killProcess, CEvent.reportTimeout]) := by
  refine ⟨rfl, rfl, fun h => ?_⟩
  rw [h]
  rfl

/-- C3 witness: a concrete timed-out create with a started process. -/
theorem createSession_timeout_atomic_witness :
    (createSession ⟨[], 1⟩ "web" (PtyOutcome.timeout true)).1 = ⟨[], 1⟩ ∧
    (createSession ⟨[], 1⟩ "web" (PtyOutcome.timeout true)).2.1 =
      CreateResult.connectionTimeout ∧
    (true = true →
      (createSession ⟨[], 1⟩ "web" (PtyOutcome.timeout true)).2.2 =
        [CEvent.killProcess, CEvent.reportTimeout]) :=
  createSession_timeout_atomic ⟨[], 1⟩ "web" true

lemma removeAt_cons_succ (a : Session) (l : List Session) (i : Nat) :
    removeAt (a :: l) (i + 1) = a :: removeAt l i := by
  unfold removeAt
  rw [List.take_succ_cons, List.drop_succ_cons, List.cons_append]

lemma removeAt_cons_zero (a : Session) (l : List Session) :
    removeAt (a :: l) 0 = l := by
  unfold removeAt
  rw [List.take_zero, List.drop_succ_cons, List.drop_zero, List.nil_append]

lemma removeAt_getElem_ge (l : List Session) :
    ∀ i j, i ≤ j → (removeAt l i)[j]? = l[j + 1]? := by
  induction l with
  | nil =>
    intro i j _
    unfold removeAt
    rw [List.take_nil, List.drop_nil, List.nil_append]
    rfl
  | cons a l ih =>
    intro i j hij
    cases i with
    | zero =>
      rw [removeAt_cons_zero, List.getElem?_cons_succ]
    | succ i =>
      cases j with
      | zero => omega
      | succ j =>
        rw [removeAt_cons_succ, List.getElem?_cons_succ, List.getElem?_cons_succ,
          ih i j (Nat.le_of_succ_le_succ hij)]

lemma removeAt_length {l : List Session} {i : Nat} (h : i < l.length) :
    (removeAt l i).length = l.length - 1 := by
  unfold removeAt
  rw [List.length_append, List.length_take, List.length_drop]
  omega

lemma removeAt_sublist : ∀ (l : List Session) (i : Nat), (removeAt l i).Sublist l := by
  intro l
  induction l with
  | nil =>
    intro i
    unfold removeAt
    rw [List.take_nil, List.drop_nil, List.nil_append]
  | cons a l ih =>
    intro i
    cases i with
    | zero =>
      rw [removeAt_cons_zero]
      exact List.sublist_cons_self a l
    | succ i =>
      rw [removeAt_cons_succ]
      exact List.Sublist.cons₂ a (ih i)

/-- C4: the number shown for a session is its 1-based position in the
current insertion order, so after removing the session at position k the
session previously at position k+1 is addressed as position k; the list
shrinks by one, and distinct sessions stay at distinct positions. -/
theorem session_renumbering (l : List Session) (k : Nat)
    (h1 : 1 ≤ k) (h2 : k + 1 ≤ l.length) :
    sessionAtPosition (removeAt l (k - 1)) k = sessionAtPosition l (k + 1) ∧
    (removeAt l (k - 1)).length = l.length - 1 ∧
    (l.Nodup → (removeAt l (k - 1)).Nodup) := by
  refine ⟨?_, removeAt_length (by omega), fun hnd => hnd.sublist (removeAt_sublist l (k - 1))⟩
  unfold sessionAtPosition
  rw [removeAt_getElem_ge l (k - 1) (k - 1) (Nat.le_refl _)]
  congr 1
  omega

/-- C4 witness: removing position 1 of a three-session registry makes the
former position-2 session addressable as position 1. -/
theorem session_renumbering_witness :
    sessionAtPosition (removeAt [⟨1, "a", 10, true, []⟩, ⟨2, "b", 11, true, []⟩,
        ⟨3, "c", 12, false, []⟩] 0) 1 =
      sessionAtPosition [⟨1, "a", 10, true, []⟩, ⟨2, "b", 11, true, []⟩,
        ⟨3, "c", 12, false, []⟩] 2 ∧
    (removeAt [⟨1, "a", 10, true, []⟩, ⟨2, "b", 11, true, []⟩,
        ⟨3, "c", 12, false, []⟩] 0).length =
      ([⟨1, "a", 10, true, []⟩, ⟨2, "b", 11, true, []⟩,
        ⟨3, "c", 12, false, []⟩] : List Session).length - 1 ∧
    (([⟨1, "a", 10, true, []⟩, ⟨2, "b", 11, true, []⟩,
        ⟨3, "c", 12, false, []⟩] : List Session).Nodup →
      (removeAt [⟨1, "a", 10, true, []⟩, ⟨2, "b", 11, true, []⟩,
        ⟨3, "c", 12, false, []⟩] 0).Nodup) :=
  session_renumbering [⟨1, "a", 10, true, []⟩, ⟨2, "b", 11, true, []⟩,
    ⟨3, "c", 12, false, []⟩] 1 (by decide) (by decide)

lemma lastActiveIdx_none_iff (l : List Session) :
    lastActiveIdx l = none ↔ ∀ s ∈ l, s.Active = false := by
  induction l with
  | nil => simp [lastActiveIdx]
  | cons a rest ih =>
    cases hr : lastActiveIdx rest with
    | some j =>
      simp only [lastActiveIdx, hr]
      constructor
      · intro hc; exact absurd hc (by simp)
      · intro hall
        have hn : lastActiveIdx rest = none :=
          ih.mpr (fun s hs => hall s (List.mem_cons_of_mem a hs))
        rw [hr] at hn
        cases hn
    | none =>
      simp only [lastActiveIdx, hr]
      by_cases ha : a.Active = true
      · rw [if_pos ha]
        constructor
        · intro hc; cases hc
        · intro hall; exact absurd (hall a (List.mem_cons_self a rest)) (by simp [ha])
      · rw [if_neg ha]
        constructor
        · intro _ s hs
          rcases List.mem_cons.mp hs with rfl | hmem
          · exact Bool.not_eq_true _ ▸ ha
          · exact ih.mp hr s hmem
        · intro _; rfl

lemma closeActiveAux_none (l : List Session) (h : lastActiveIdx l = none) :
    closeActiveAux l = none := by
  induction l with
  | nil => rfl
  | cons a rest ih =>
    cases hr : lastActiveIdx rest with
    | some j =>
      simp only [lastActiveIdx, hr] at h
      cases h
    | none =>
      simp only [lastActiveIdx, hr] at h
      by_cases ha : a.Active = true
      · rw [if_pos ha] at h; cases h
      · simp only [closeActiveAux, ih hr]
        rw [if_neg ha]

lemma closeActiveAux_some (l : List Session) :
    ∀ i, lastActiveIdx l = some i →
      ∃ c, l[i]? = some c ∧ closeActiveAux l = some (removeAt l i, c) := by
  induction l with
  | nil => intro i h; cases h
  | cons a rest ih =>
    intro i h
    cases hr : lastActiveIdx rest with
    | some j =>
      simp only [lastActiveIdx, hr] at h
      have hi : i = j + 1 := (Option.some.inj h).symm
      subst hi
      obtain ⟨c, hc, haux⟩ := ih j hr
      refine ⟨c, ?_, ?_⟩
      · rw [List.getElem?_cons_succ]; exact hc
      · simp only [closeActiveAux, haux, removeAt_cons_succ]
    | none =>
      simp only [lastActiveIdx, hr] at h
      by_cases ha : a.Active = true
      · rw [if_pos ha] at h
        have hi : i = 0 := (Option.some.inj h).symm
        subst hi
        refine ⟨a, List.getElem?_cons_zero, ?_⟩
        simp only [closeActiveAux, closeActiveAux_none rest hr, removeAt_cons_zero]
        rw [if_pos ha]
      · rw [if_neg ha] at h; cases h

lemma lastActiveIdx_active (l : List Session) :
    ∀ i, lastActiveIdx l = some i → ∀ s, l[i]? = some s → s.Active = true := by
  induction l with
  | nil => intro i h; cases h
  | cons a rest ih =>
    intro i h s hs
    cases hr : lastActiveIdx rest with
    | some j =>
      simp only [lastActiveIdx, hr] at h
      have hi : i = j + 1 := (Option.some.inj h).symm
      subst hi
      rw [List.getElem?_cons_succ] at hs
      exact ih j hr s hs
    | none =>
      simp only [lastActiveIdx, hr] at h
      by_cases ha : a.Active = true
      · rw [if_pos ha] at h
        have hi : i = 0 := (Option.some.inj h).symm
        subst hi
        rw [List.getElem?_cons_zero] at hs
        have heq : a = s := Option.some.inj hs
        exact heq ▸ ha
      · rw [if_neg ha] at h; cases h

lemma lastActiveIdx_last (l : List Session) :
    ∀ i, lastActiveIdx l = some i → ∀ j s, i < j → l[j]? = some s → s.Active = false := by
  induction l with
  | nil => intro i h; cases h
  | cons a rest ih =>
    intro i h j s hij hjs
    cases hr : lastActiveIdx rest with
    | some jr =>
      simp only [lastActiveIdx, hr] at h
      have hi : i = jr + 1 := (Option.some.inj h).symm
      subst hi
      cases j with
      | zero => omega
      | succ j =>
        rw [List.getElem?_cons_succ] at hjs
        exact ih jr hr j s (by omega) hjs
    | none =>
      simp only [lastActiveIdx, hr] at h
      by_cases ha : a.Active = true
      · rw [if_pos ha] at h
        cases j with
        | zero => omega
        | succ j =>
          rw [List.getElem?_cons_succ] at hjs
          have hall := (lastActiveIdx_none_iff rest).mp hr
          exact hall s (List.getElem?_mem hjs)
      · rw [if_neg ha] at h; cases h

/-- C6: closeActive removes exactly the last session in index order whose
active flag is set — returning the registry with only that entry removed
and that entry (the one whose process is killed and pty closed) — while a
registry without any active session is left entirely unchanged with no
error; lastActiveIdx is none exactly when no session is active. -/
theorem closeActive_spec (l : List Session) :
    ((∀ s ∈ l, s.Active = false) → closeActiveSession l = (l, none)) ∧
    (∀ i, lastActiveIdx l = some i →
      closeActiveSession l = (removeAt l i, l[i]?) ∧
      (∀ s, l[i]? = some s → s.Active = true) ∧
      (∀ j s, i < j → l[j]? = some s → s.Active = false)) ∧
    (lastActiveIdx l = none ↔ ∀ s ∈ l, s.Active = false) := by
  refine ⟨?_, ?_, lastActiveIdx_none_iff l⟩
  · intro hall
    have hn := (lastActiveIdx_none_iff l).mpr hall
    unfold closeActiveSession
    rw [closeActiveAux_none l hn]
  · intro i hi
    obtain ⟨c, hc, haux⟩ := closeActiveAux_some l i hi
    refine ⟨?_, lastActiveIdx_active l i hi, lastActiveIdx_last l i hi⟩
    unfold closeActiveSession
    rw [haux, hc]

/-- C6 witness: in a registry whose only active session sits in the
middle, closeActive removes exactly that one. -/
theorem closeActive_spec_witness :
    closeActiveSession [⟨1, "a", 10, false, []⟩, ⟨2, "b", 11, true, []⟩,
        ⟨3, "c", 12, false, []⟩] =
      (removeAt [⟨1, "a", 10, false, []⟩, ⟨2, "b", 11, true, []⟩,
          ⟨3, "c", 12, false, []⟩] 1,
        ([⟨1, "a", 10, false, []⟩, ⟨2, "b", 11, true, []⟩,
          ⟨3, "c", 12, false, []⟩] : List Session)[1]?) :=
  ((closeActive_spec [⟨1, "a", 10, false, []⟩, ⟨2, "b", 11, true, []⟩,
      ⟨3, "c", 12, false, []⟩]).2.1 1 (by decide)).1

/-- C8: attaching to a session whose process has already exited reports
SessionEnded and returns before any other phase runs: the scrollback is
exactly what it was, no bytes are replayed or forwarded, raw mode is never
acquired, and no pty or registry operation happens (attachToSession does
not touch the registry at all — its only writable state is the scrollback,
left unchanged here). -/
theorem attach_ended_guard (sb : List Nat) (env : AttachEnv) (h : env.exited = true) :
    attachToSession sb env =
      { scrollback := sb, outcome := AttachOutcome.sessionEnded, rawModeUsed := false,
        replayed := [], forwarded := [] } := by
  unfold attachToSession
  rw [h]
  rfl

/-- C8 witness: a concrete exited session with pending streams is left
untouched. -/
theorem attach_ended_guard_witness :
    attachToSession [1, 2] ⟨true, [[3]], [[4]]⟩ =
      { scrollback := [1, 2], outcome := AttachOutcome.sessionEnded, rawModeUsed := false,
        replayed := [], forwarded := [] } :=
  attach_ended_guard [1, 2] ⟨true, [[3]], [[4]]⟩ rfl

lemma closeActive_fst_sublist (l : List Session) : (closeActiveSession l).1.Sublist l := by
  unfold closeActiveSession
  cases h : closeActiveAux l with
  | none => exact List.Sublist.refl l
  | some p =>
    have : ∀ (l : List Session) (l' : List Session) (c : Session),
        closeActiveAux l = some (l', c) → l'.Sublist l := by
      intro l
      induction l with
      | nil => intro l' c h; cases h
      | cons a rest ih =>
        intro l' c h
        cases hr : closeActiveAux rest with
        | some q =>
          simp only [closeActiveAux, hr] at h
          obtain ⟨h1, _⟩ := Prod.mk.injEq .. ▸ Option.some.inj h
          exact h1 ▸ List.Sublist.cons₂ a (ih q.1 q.2 (by rw [hr]))
        | none =>
          simp only [closeActiveAux, hr] at h
          by_cases ha : a.Active = true
          · rw [if_pos ha] at h
            obtain ⟨h1, _⟩ := Prod.mk.injEq .. ▸ Option.some.inj h
            exact h1 ▸ List.sublist_cons_self a rest
          · rw [if_neg ha] at h; cases h
    exact this l p.1 p.2 (by rw [h])

lemma step_nextID_mono (st : RegState) (op : Op) : st.nextID ≤ (step st op).nextID := by
  cases op with
  | create al outcome =>
    cases outcome with
    | ok p => exact Nat.le_succ _
    | err m => exact Nat.le_refl _
    | timeout b => exact Nat.le_refl _
  | monitorExit id => exact Nat.le_refl _
  | closeActive => exact Nat.le_refl _
  | closeAll => exact Nat.le_refl _
  | attach id chunks => exact Nat.le_refl _

lemma step_inactive (st : RegState) (op : Op) (id : Nat)
    (hlt : id < st.nextID)
    (h : ∀ s ∈ st.sessions, s.ID = id → s.Active = false) :
    ∀ s ∈ (step st op).sessions, s.ID = id → s.Active = false := by
  cases op with
  | create al outcome =>
    cases outcome with
    | ok p =>
      intro s hs hsid
      rcases List.mem_append.mp hs with hmem | hmem
      · exact h s hmem hsid
      · exfalso
        have hse : s = newSession st al p := by simpa using hmem
        rw [hse] at hsid
        simp only [newSession] at hsid
        omega
    | err m => exact h
    | timeout b => exact h
  | monitorExit mid =>
    intro s hs hsid
    obtain ⟨s0, hs0, hmap⟩ := List.mem_map.mp hs
    by_cases hid : s0.ID = mid
    · rw [if_pos hid] at hmap
      rw [← hmap]
    · rw [if_neg hid] at hmap
      exact h s (hmap ▸ hs0) hsid
  | closeActive =>
    intro s hs hsid
    exact h s ((closeActive_fst_sublist st.sessions).mem hs) hsid
  | closeAll => intro s hs; cases hs
  | attach aid chunks =>
    intro s hs hsid
    obtain ⟨s0, hs0, hmap⟩ := List.mem_map.mp hs
    by_cases hid : s0.ID = aid
    · rw [if_pos hid] at hmap
      have hact : s.Active = s0.Active := by rw [← hmap]
      have hsid0 : s0.ID = id := by rw [← hmap] at hsid; exact hsid
      rw [hact]
      exact h s0 hs0 hsid0
    · rw [if_neg hid] at hmap
      exact h s (hmap ▸ hs0) hsid

lemma foldl_step_inactive (ops : List Op) : ∀ (st : RegState) (id : Nat),
    id < st.nextID →
    (∀ s ∈ st.sessions, s.ID = id → s.Active = false) →
    ∀ s ∈ (ops.foldl step st).sessions, s.ID = id → s.Active = false := by
  induction ops with
  | nil => intro st id _ h; exact h
  | cons op ops ih =>
    intro st id hlt h
    exact ih (step st op) id (Nat.lt_of_lt_of_le hlt (step_nextID_mono st op))
      (step_inactive st op id hlt h)

/-- C9: a session is created with active set; once its active flag is
false (as the exit-monitor task leaves it), no operation of the system —
create, monitor-exit, attach, close-active, close-all, in any order —
ever makes a session with that id active again (ids below nextID are never
reassigned, so the flag transition is one-way and terminal). -/
theorem active_one_way (st : RegState) (ops : List Op) (id : Nat)
    (hwf : ∀ s ∈ st.sessions, s.ID < st.nextID)
    (hex : ∃ s ∈ st.sessions, s.ID = id)
    (hin : ∀ s ∈ st.sessions, s.ID = id → s.Active = false) :
    (∀ s ∈ (ops.foldl step st).sessions, s.ID = id → s.Active = false) ∧
    (∀ al p s, s ∈ ((createSession st al (PtyOutcome.ok p)).1).sessions →
      s ∉ st.sessions → s.Active = true) := by
  constructor
  · obtain ⟨s0, hs0, hs0id⟩ := hex
    exact foldl_step_inactive ops st id (hs0id ▸ hwf s0 hs0) hin
  · intro al p s hs hnew
    rcases List.mem_append.mp hs with hmem | hmem
    · exact absurd hmem hnew
    · have hse : s = newSession st al p := by simpa using hmem
      rw [hse]
      rfl

/-- C9 witness: a registry holding one ended session with id 1; after a
create, a monitor exit and a close-active no session with id 1 is active,
and the session a create adds starts active. -/
theorem active_one_way_witness :
    (∀ s ∈ (([Op.create "x" (PtyOutcome.ok 5), Op.monitorExit 2,
        Op.closeActive].foldl step ⟨[⟨1, "h", 9, false, []⟩], 2⟩).sessions),
      s.ID = 1 → s.Active = false) ∧
    (∀ al p s,
      s ∈ ((createSession ⟨[⟨1, "h", 9, false, []⟩], 2⟩ al (PtyOutcome.ok p)).1).sessions →
      s ∉ (⟨[⟨1, "h", 9, false, []⟩], 2⟩ : RegState).sessions → s.Active = true) :=
  active_one_way ⟨[⟨1, "h", 9, false, []⟩], 2⟩
    [Op.create "x" (PtyOutcome.ok 5), Op.monitorExit 2, Op.closeActive] 1
    (by decide) (by decide) (by decide)

lemma collectStep_length (tasks : List (SSHHost × HostOutcome))
    (acc : List (Option HostResult)) (i : Nat) :
    (collectStep tasks acc i).length = acc.length := by
  unfold collectStep
  cases tasks[i]? with
  | none => rfl
  | some t => exact List.length_set acc i _

lemma foldl_collectStep_not_written (tasks : List (SSHHost × HostOutcome))
    (order : List Nat) :
    ∀ (acc : List (Option HostResult)) (j : Nat), (j ∉ order ∨ tasks[j]? = none) →
      (order.foldl (collectStep tasks) acc)[j]? = acc[j]? := by
  induction order with
  | nil => intro acc j _; rfl
  | cons i rest ih =>
    intro acc j hj
    rw [List.foldl_cons]
    have hstep : (collectStep tasks acc i)[j]? = acc[j]? := by
      unfold collectStep
      cases ht : tasks[i]? with
      | none => rfl
      | some t =>
        rw [List.getElem?_set]
        rcases hj with hj | hj
        · rw [if_neg (fun hij => hj (by rw [← hij]; exact List.mem_cons_self i rest))]
        · by_cases hij : i = j
          · rw [hij, hj] at ht; cases ht
          · rw [if_neg hij]
    have hrest : j ∉ rest ∨ tasks[j]? = none := by
      rcases hj with hj | hj
      · exact Or.inl (fun hm => hj (List.mem_cons_of_mem i hm))
      · exact Or.inr hj
    rw [ih (collectStep tasks acc i) j hrest, hstep]

lemma foldl_collectStep_written (tasks : List (SSHHost × HostOutcome))
    (order : List Nat) :
    ∀ (acc : List (Option HostResult)) (j : Nat) (t : SSHHost × HostOutcome),
      acc.length = tasks.length → tasks[j]? = some t → j ∈ order →
      (order.foldl (collectStep tasks) acc)[j]? = some (some (runHost t.1 t.2)) := by
  induction order with
  | nil => intro acc j t _ _ hj; cases hj
  | cons i rest ih =>
    intro acc j t hlen ht hj
    rw [List.foldl_cons]
    by_cases hjr : j ∈ rest
    · exact ih (collectStep tasks acc i) j t
        ((collectStep_length tasks acc i).trans hlen) ht hjr
    · have hij : j = i := by
        rcases List.mem_cons.mp hj with h | h
        · exact h
        · exact absurd h hjr
      subst hij
      rw [foldl_collectStep_not_written tasks rest (collectStep tasks acc j) j (Or.inl hjr)]
      have hlt : j < tasks.length := by
        by_contra hnl
        rw [List.getElem?_eq_none (Nat.le_of_not_lt hnl)] at ht
        cases ht
      unfold collectStep
      rw [ht, List.getElem?_set, if_pos rfl, if_pos (hlen ▸ hlt)]

lemma printReport_not_mem_finish (tasks : List (SSHHost × HostOutcome)) (i : Nat)
    (rs : List (Option HostResult)) :
    MEvent.printReport rs ∉ hostFinishEvents tasks i := by
  unfold hostFinishEvents
  cases ht : tasks[i]? with
  | none => exact List.not_mem_nil _
  | some t =>
    obtain ⟨h, o⟩ := t
    cases o with
    | ok out => simp
    | spawnErr e => simp

/-- C7 counterexample: with a single host finishing successfully, the
collected-mode trace prints the banner (and the per-host check-mark line)
before the task-finish event, so it is false that nothing is printed until
all per-host tasks have finished. -/
theorem collected_noprint_counterexample :
    ¬ noPrintBeforeFinish (collectedEvents
      [(⟨"A", "", "", "", []⟩, HostOutcome.ok "a")] [0]) := by
  intro h
  exact absurd (h 0 2 (by decide) (by decide) (by decide)) (by decide)

/-- C7 amended: for every non-empty selection run in collected mode, the
single final report is emitted after every collecting-phase event (hence
after every task finish) and contains one section per host strictly in the
original selection order regardless of finish order, a host whose spawn
failed getting a section with its error and empty output without
disturbing the other hosts' sections; during the collecting phase only the
entry banner and per-host progress lines are printed, never a report. -/
theorem collected_report (tasks : List (SSHHost × HostOutcome)) (order : List Nat)
    (hcover : ∀ j, j < tasks.length → j ∈ order) :
    collectedResults tasks order = tasks.map (fun t => some (runHost t.1 t.2)) ∧
    collectedEvents tasks order =
      collectingPhaseEvents tasks order ++
        [MEvent.printReport (tasks.map (fun t => some (runHost t.1 t.2)))] ∧
    (∀ rs, MEvent.printReport rs ∉ collectingPhaseEvents tasks order) := by
  have h1 : collectedResults tasks order = tasks.map (fun t => some (runHost t.1 t.2)) := by
    apply List.ext_getElem?
    intro j
    by_cases hlt : j < tasks.length
    · have ht := List.getElem?_eq_getElem hlt
      rw [collectedResults,
        foldl_collectStep_written tasks order _ j _
          (List.length_replicate _ _) ht (hcover j hlt),
        List.getElem?_map, ht]
      rfl
    · have ht : tasks[j]? = none := List.getElem?_eq_none (Nat.le_of_not_lt hlt)
      rw [collectedResults, foldl_collectStep_not_written tasks order _ j (Or.inr ht),
        List.getElem?_eq_none, List.getElem?_eq_none]
      · rw [List.length_map]; omega
      · rw [List.length_replicate]; omega
  refine ⟨h1, ?_, ?_⟩
  · rw [collectedEvents, h1]
  · intro rs hmem
    rcases List.mem_cons.mp hmem with hb | hf
    · cases hb
    · obtain ⟨l, hl, hel⟩ := List.mem_flatten.mp hf
      obtain ⟨i, _, hi⟩ := List.mem_map.mp hl
      exact printReport_not_mem_finish tasks i rs (hi ▸ hel)

/-- C7 witness: hosts A, B, C with B's spawn failing and finish order
C, A, B still report sections in selection order A, B, C, with B showing
its error and empty output. -/
theorem collected_report_witness :
    collectedResults
        [(⟨"A", "", "", "", []⟩, HostOutcome.ok "a"),
          (⟨"B", "", "", "", []⟩, HostOutcome.spawnErr "boom"),
          (⟨"C", "", "", "", []⟩, HostOutcome.ok "c")] [2, 0, 1] =
      [some ⟨"A", "a", none⟩, some ⟨"B", "", some "boom"⟩, some ⟨"C", "c", none⟩] := by
  have h := (collected_report
    [(⟨"A", "", "", "", []⟩, HostOutcome.ok "a"),
      (⟨"B", "", "", "", []⟩, HostOutcome.spawnErr "boom"),
      (⟨"C", "", "", "", []⟩, HostOutcome.ok "c")] [2, 0, 1] (by decide)).1
  rw [h]
  decide

/-- C10: with a non-empty host selection, a command line that is empty
after trimming makes executeMultiHost return at once: the trace holds only
the command prompt printed before the line was read — no display-mode
prompt, no dispatch to either executor, no output and no error — unlike
the empty-selection case, which prints the no-hosts notice. -/
theorem multiHost_empty_command (hosts : List SSHHost) (commandLine modeInput : List Char)
    (h1 : hosts ≠ []) (h2 : trimSpace commandLine = []) :
    executeMultiHost hosts commandLine modeInput = [UIEvent.promptCommand] ∧
    executeMultiHost [] commandLine modeInput = [UIEvent.noHostsNotice] := by
  constructor
  · unfold executeMultiHost
    rw [if_neg (fun hlen => h1 (List.eq_nil_of_length_eq_zero hlen))]
    simp [h2]
  · rfl

/-- C10 witness: one host and a whitespace-only command line. -/
theorem multiHost_empty_command_witness :
    executeMultiHost [⟨"A", "", "", "", []⟩] [' ', ' '] ['1'] = [UIEvent.promptCommand] ∧
    executeMultiHost [] [' ', ' '] ['1'] = [UIEvent.noHostsNotice] :=
  multiHost_empty_command [⟨"A", "", "", "", []⟩] [' ', ' '] ['1']
    (by decide) (by decide)

end SSHTui
